import Mathlib

/-!
Verification of the mascot-patching pipeline in `scripts/patch-clawd.py` and
the exit behaviour of `scripts/patch-credential-cache.py`.

Byte buffers are modelled as `List Char`; all content involved is ASCII, so a
Python `bytes` object of length n is a `List Char` of length n.  Every
definition below is a direct translation of the correspondingly named Python
function; file-system and subprocess effects (backup copy, atomic write,
codesign, `claude --version` health check) are modelled as boolean events
passed to the pure pipeline, matching the code's treatment of them as
succeed/fail outcomes.
-/

set_option maxRecDepth 20000

/-- ASCII bytes of a string literal. -/
def bytesOf (s : String) : List Char := s.data

/-- `listLeads pat s`: `pat` is a prefix of `s` (byte-wise). -/
def listLeads : List Char → List Char → Bool
  | [], _ => true
  | _ :: _, [] => false
  | p :: pt, c :: ct => p = c && listLeads pt ct

/-- `containsSeq pat s` models Python's `pat in s` on bytes:
`pat` occurs contiguously in `s`. -/
def containsSeq (pat : List Char) : List Char → Bool
  | [] => listLeads pat []
  | c :: t => listLeads pat (c :: t) || containsSeq pat t

/-- `sliceAt img off len` models `img[off : off+len]`. -/
def sliceAt (img : List Char) (off len : Nat) : List Char :=
  (img.drop off).take len

/-- `writeAt img off len new` models `img[off : off+len] = new` on a bytearray. -/
def writeAt (img : List Char) (off len : Nat) (new : List Char) : List Char :=
  img.take off ++ new ++ img.drop (off + len)

/-! ## Design constants (patch-clawd.py, lines 41-50) -/

def ROW1_STR : List Char := bytesOf ("\"\\u2597\\u2598 \\u2726 \\u259D\\u2596\"")
def ROW2_WING : List Char := bytesOf ("\"\\u2590\\u258C\"")
def ROW2_EYE : List Char := bytesOf ("\" \\u25CF \"")
/-- Base Row 3 string; trailing spaces are adjusted by the padding solver. -/
def ROW3_BASE : List Char := bytesOf ("\" \\u2580   \\u2580 \"")
/-- Row 3 with one extra trailing space (build_replacement, remainder 1). -/
def ROW3_PLUS1 : List Char := bytesOf ("\" \\u2580   \\u2580  \"")
/-- Row 3 with two extra trailing spaces (build_replacement, remainder 2). -/
def ROW3_PLUS2 : List Char := bytesOf ("\" \\u2580   \\u2580   \"")

def ROW1_COLOR : List Char := bytesOf ("chromeYellow")
def ROW2_WING_COLOR : List Char := bytesOf ("penguinShimmer")
def ROW2_EYE_COLOR : List Char := bytesOf ("chromeYellow")
def ROW3_COLOR : List Char := bytesOf ("chromeYellow")

/-! ## Detected blocks (find_mascot_blocks result dictionaries) -/

inductive BlockKind where
  | fullFunction
  | returnBlock
deriving DecidableEq, Repr

structure BlockInfo where
  kind : BlockKind
  offset : Nat
  length : Nat
  block : List Char
  funcName : Option (List Char)
  reactVar : List Char
  flexVar : List Char
  textVar : List Char
deriving DecidableEq, Repr

/-! ## Replacement builder (patch-clawd.py, build_replacement, lines 401-515) -/

/-- `PATCHED_FINGERPRINT` (line 393). -/
def PATCHED_FINGERPRINT : List Char :=
  bytesOf ("color:\"chromeYellow\"\x7d,\"\\u2597\\u2598 \\u2726 \\u259D\\u2596\"")

/-- `is_already_patched` (lines 396-398). -/
def is_already_patched (blockBytes : List Char) : Bool :=
  containsSeq PATCHED_FINGERPRINT blockBytes

def CE : List Char := bytesOf (".createElement(")

/-- Row 1 of the replacement, with the optional `,""` padding inserted
before the closing paren (lines 414-417 and 494-497). -/
def row1R (b : BlockInfo) (padding : List Char) : List Char :=
  b.reactVar ++ CE ++ b.textVar ++ bytesOf (",\x7bcolor:\"") ++ ROW1_COLOR ++
    bytesOf ("\"\x7d,") ++ ROW1_STR ++ padding ++ bytesOf (")")

/-- Row 2 wing element (lines 419, 421; left and right are identical). -/
def row2WingR (b : BlockInfo) : List Char :=
  b.reactVar ++ CE ++ b.textVar ++ bytesOf (",\x7bcolor:\"") ++ ROW2_WING_COLOR ++
    bytesOf ("\"\x7d,") ++ ROW2_WING ++ bytesOf (")")

/-- Row 2 eye element (line 420). -/
def row2EyeR (b : BlockInfo) : List Char :=
  b.reactVar ++ CE ++ b.textVar ++ bytesOf (",\x7bcolor:\"") ++ ROW2_EYE_COLOR ++
    bytesOf ("\"\x7d,") ++ ROW2_EYE ++ bytesOf (")")

/-- Row 2 (line 422). -/
def row2R (b : BlockInfo) : List Char :=
  b.reactVar ++ CE ++ b.textVar ++ bytesOf (",null,") ++ row2WingR b ++
    bytesOf (",") ++ row2EyeR b ++ bytesOf (",") ++ row2WingR b ++ bytesOf (")")

/-- Row 3 with the given string literal (lines 424, 456, 469). -/
def row3R (b : BlockInfo) (row3Str : List Char) : List Char :=
  b.reactVar ++ CE ++ b.textVar ++ bytesOf (",\x7bcolor:\"") ++ ROW3_COLOR ++
    bytesOf ("\"\x7d,") ++ row3Str ++ bytesOf (")")

/-- The assembled `inner` expression (lines 427, 457, 470, 498). -/
def innerR (b : BlockInfo) (row3Str padding : List Char) : List Char :=
  b.reactVar ++ CE ++ b.flexVar ++
    bytesOf (",\x7bflexDirection:\"column\",alignItems:\"center\"\x7d,") ++
    row1R b padding ++ bytesOf (",") ++ row2R b ++ bytesOf (",") ++
    row3R b row3Str ++ bytesOf (")")

/-- The rendered candidate, wrapped as the block's kind requires
(lines 429-433, 458-461, 471-474, 500-503). -/
def renderCore (b : BlockInfo) (row3Str padding : List Char) : List Char :=
  match b.kind with
  | .fullFunction =>
      bytesOf ("function ") ++ b.funcName.getD [] ++ bytesOf ("()\x7breturn ") ++
        innerR b row3Str padding ++ bytesOf ("\x7d")
  | .returnBlock => bytesOf ("return ") ++ innerR b row3Str padding

/-- `,""` repeated `k` times (line 492). -/
def padChars : Nat → List Char
  | 0 => []
  | k + 1 => bytesOf (",\"\"") ++ padChars k

/-- Second stage of `build_replacement` (lines 480-515): with the Row 3
string fixed, require the remaining deficit to be an exact nonnegative
multiple of 3, pad Row 1 with that many `,""` children, and re-measure. -/
def buildStage2 (b : BlockInfo) (row3Str : List Char) : Option (List Char) :=
  if ((b.length : Int) - ((renderCore b row3Str []).length : Int)) % 3 ≠ 0 then
    none
  else if ((b.length : Int) - ((renderCore b row3Str []).length : Int)) / 3 < 0 then
    none
  else if (renderCore b row3Str (padChars
      (((b.length : Int) - ((renderCore b row3Str []).length : Int)) / 3).toNat)).length
      ≠ b.length then
    none
  else
    some (renderCore b row3Str (padChars
      (((b.length : Int) - ((renderCore b row3Str []).length : Int)) / 3).toNat))

/-- `build_replacement` (lines 401-515).  Success carries the replacement
bytes; `none` covers the TooLong and NoExactFit failures. -/
def build_replacement (b : BlockInfo) : Option (List Char) :=
  if ((b.length : Int) - ((renderCore b ROW3_BASE []).length : Int)) < 0 then none
  else if ((b.length : Int) - ((renderCore b ROW3_BASE []).length : Int)) = 0 then
    some (renderCore b ROW3_BASE [])
  else if ((b.length : Int) - ((renderCore b ROW3_BASE []).length : Int)) % 3 = 1 then
    buildStage2 b ROW3_PLUS1
  else if ((b.length : Int) - ((renderCore b ROW3_BASE []).length : Int)) % 3 = 2 then
    buildStage2 b ROW3_PLUS2
  else
    buildStage2 b ROW3_BASE

/-! ## Pattern detection (patch-clawd.py, lines 163-385)

The two anchor regexes are embedded as deterministic matchers.  Each `+`
repetition in the patterns is over a character class disjoint from the
character that follows it, so maximal munch coincides with Python's
backtracking semantics; the single optional group `(?:\.[\w$]+)?` is tried
greedily and dropped when the following literal fails, exactly as in `re`. -/

/-- Python `\w` on bytes: `[a-zA-Z0-9_]`. -/
def isWordChar (c : Char) : Bool :=
  (65 ≤ c.toNat && c.toNat ≤ 90) || (97 ≤ c.toNat && c.toNat ≤ 122) ||
    (48 ≤ c.toNat && c.toNat ≤ 57) || c.toNat == 95

/-- The class `[\w$]` used for identifiers. -/
def isIdentChar (c : Char) : Bool := isWordChar c || c.toNat == 36

/-- Python `\s` on bytes: space, `\t`, `\n`, `\r`, `\f`, `\v`. -/
def isSpaceChar (c : Char) : Bool :=
  c.toNat == 32 || c.toNat == 9 || c.toNat == 10 || c.toNat == 13 ||
    c.toNat == 11 || c.toNat == 12

/-- Maximal run of `[\w$]` characters and the remainder. -/
def takeIdentRun : List Char → List Char × List Char
  | [] => ([], [])
  | c :: t =>
    if isIdentChar c then
      ((c :: (takeIdentRun t).1), (takeIdentRun t).2)
    else ([], c :: t)

/-- Match a literal byte sequence, returning the remainder. -/
def matchLit : List Char → List Char → Option (List Char)
  | [], s => some s
  | _ :: _, [] => none
  | p :: pt, c :: ct => if p = c then matchLit pt ct else none

def dropSpaceRun : List Char → List Char
  | [] => []
  | c :: t => if isSpaceChar c then dropSpaceRun t else c :: t

/-- `\s+`: at least one whitespace byte, maximal munch. -/
def takeSpaces1 (s : List Char) : Option (List Char) :=
  match s with
  | [] => none
  | c :: t => if isSpaceChar c then some (dropSpaceRun t) else none

/-- `([\w$]+(?:\.[\w$]+)?)\.createElement\(`: the captured variable
(which may contain one dot) and the remainder after the literal. -/
def matchVarDotCreate (s : List Char) : Option (List Char × List Char) :=
  match takeIdentRun s with
  | ([], _) => none
  | (id1, r1) =>
    match r1 with
    | '.' :: r2 =>
      (match takeIdentRun r2 with
       | ([], _) =>
         (match matchLit CE r1 with
          | some r4 => some (id1, r4)
          | none => none)
       | (id2, r3) =>
         (match matchLit CE r3 with
          | some r4 => some (id1 ++ '.' :: id2, r4)
          | none =>
            match matchLit CE r1 with
            | some r4 => some (id1, r4)
            | none => none))
    | _ =>
      match matchLit CE r1 with
      | some r4 => some (id1, r4)
      | none => none

/-- The fixed option literal both anchors end with (`ANCHOR`, line 163). -/
def ANCHOR_TAIL : List Char :=
  bytesOf (",\x7bflexDirection:\"column\",alignItems:\"center\"\x7d")

/-- Try `FULL_FUNC_RE` (lines 182-186) at the head of `s`; on success return
the captures `(func_name, react_var, flex_var)` and the match length. -/
def matchFullAt (s : List Char) : Option ((List Char × List Char × List Char) × Nat) :=
  match matchLit (bytesOf ("function")) s with
  | none => none
  | some r1 =>
    match takeSpaces1 r1 with
    | none => none
    | some r2 =>
      match takeIdentRun r2 with
      | ([], _) => none
      | (nm, r3) =>
        match matchLit (bytesOf ("()\x7breturn")) r3 with
        | none => none
        | some r4 =>
          match takeSpaces1 r4 with
          | none => none
          | some r5 =>
            match matchVarDotCreate r5 with
            | none => none
            | some (rv, r6) =>
              match takeIdentRun r6 with
              | ([], _) => none
              | (fv, r7) =>
                match matchLit ANCHOR_TAIL r7 with
                | none => none
                | some r8 => some ((nm, rv, fv), s.length - r8.length)

/-- Try `RETURN_BLOCK_RE` (lines 188-191) at the head of `s`; on success
return `(react_var, flex_var)` and the match length. -/
def matchReturnAt (s : List Char) : Option ((List Char × List Char) × Nat) :=
  match matchLit (bytesOf ("return")) s with
  | none => none
  | some r1 =>
    match takeSpaces1 r1 with
    | none => none
    | some r2 =>
      match matchVarDotCreate r2 with
      | none => none
      | some (rv, r3) =>
        match takeIdentRun r3 with
        | ([], _) => none
        | (fv, r4) =>
          match matchLit ANCHOR_TAIL r4 with
          | none => none
          | some r5 => some ((rv, fv), s.length - r5.length)

/-- `finditer` for `FULL_FUNC_RE`: scan left to right, emitting
non-overlapping matches and continuing after each match end. -/
def goFull : Nat → List Char → Nat →
    List (Nat × (List Char × List Char × List Char))
  | 0, _, _ => []
  | _ + 1, [], _ => []
  | fuel + 1, c :: t, i =>
    match matchFullAt (c :: t) with
    | some (cap, n) => (i, cap) :: goFull fuel ((c :: t).drop n) (i + n)
    | none => goFull fuel t (i + 1)

def findFullMatches (data : List Char) : List (Nat × (List Char × List Char × List Char)) :=
  goFull data.length data 0

/-- `finditer` for `RETURN_BLOCK_RE`. -/
def goReturn : Nat → List Char → Nat → List (Nat × (List Char × List Char))
  | 0, _, _ => []
  | _ + 1, [], _ => []
  | fuel + 1, c :: t, i =>
    match matchReturnAt (c :: t) with
    | some (cap, n) => (i, cap) :: goReturn fuel ((c :: t).drop n) (i + n)
    | none => goReturn fuel t (i + 1)

def findReturnMatches (data : List Char) : List (Nat × (List Char × List Char)) :=
  goReturn data.length data 0

/-! ## Delimiter extractor (`_extract_block`, lines 194-245)

The brace branch and the paren branch of the source are the same loop over
different characters; `scanBalance` is that loop. -/

inductive ExtractKind where
  | function
  | ret
deriving DecidableEq, Repr

def openOf : ExtractKind → Char
  | .function => '\x7b'
  | .ret => '('

def closeOf : ExtractKind → Char
  | .function => '\x7d'
  | .ret => ')'

/-- The scanning loop of `_extract_block`: `depth` counts open minus close,
`started` records whether an opener has been seen, `i` is the index of the
next byte; returns `end = i + 1` at the first closer where `started` holds
and the depth returns to 0, else `none`. -/
def scanBalance (oc cc : Char) : List Char → Int → Bool → Nat → Option Nat
  | [], _, _, _ => none
  | c :: rest, depth, started, i =>
    if c = oc then scanBalance oc cc rest (depth + 1) true (i + 1)
    else if c = cc then
      if started = true ∧ depth - 1 = 0 then some (i + 1)
      else scanBalance oc cc rest (depth - 1) started (i + 1)
    else scanBalance oc cc rest depth started (i + 1)

/-- `_extract_block(data, start_offset, kind)`: scan a window of 2000 bytes
(`chunk_size`, line 211) and return the balanced span and its length. -/
def extract_block (data : List Char) (start : Nat) (kind : ExtractKind) :
    Option (List Char × Nat) :=
  match scanBalance (openOf kind) (closeOf kind) (sliceAt data start 2000) 0 false 0 with
  | none => none
  | some e => some ((sliceAt data start 2000).take e, e)

/-! ## Block classifier (`find_mascot_blocks`, lines 248-385) -/

def CLAWD_BODY : List Char := bytesOf ("clawd_body")

/-- `MASCOT_CHARS` (lines 167-178). -/
def MASCOT_CHARS : List (List Char) :=
  [bytesOf ("\\u25CF"), bytesOf ("\\u2580"), bytesOf ("\\u258C"),
   bytesOf ("\\u2590"), bytesOf ("\\u2584"), bytesOf ("\\u2596"),
   bytesOf ("\\u2597"), bytesOf ("\\u2598"), bytesOf ("\\u259D"),
   bytesOf ("\\u2726")]

/-- The text-component search (lines 289-307 and 353-367): first
`createElement(X,{color:"clawd_body"`, then the `penguinShimmer` variant,
then `createElement(X,null,`. -/
def matchCEAt (suffix : List Char) (s : List Char) : Option (List Char) :=
  match matchLit (bytesOf ("createElement(")) s with
  | none => none
  | some r1 =>
    match takeIdentRun r1 with
    | ([], _) => none
    | (g, r2) =>
      match matchLit suffix r2 with
      | none => none
      | some _ => some g

def searchCE (suffix : List Char) : List Char → Option (List Char)
  | [] => none
  | c :: t =>
    match matchCEAt suffix (c :: t) with
    | some g => some g
    | none => searchCE suffix t

def findTextVar (blockBytes : List Char) : Option (List Char) :=
  match searchCE (bytesOf (",\x7bcolor:\"clawd_body\"")) blockBytes with
  | some g => some g
  | none =>
    match searchCE (bytesOf (",\x7bcolor:\"penguinShimmer\"")) blockBytes with
    | some g => some g
    | none => searchCE (bytesOf (",null,")) blockBytes

/-- Context validation plus span extraction for one full-function anchor
(lines 266-321). -/
def processFull (data : List Char)
    (m : Nat × (List Char × List Char × List Char)) : Option BlockInfo :=
  match m with
  | (funcStart, (nm, rv, fv)) =>
    if ¬ (containsSeq CLAWD_BODY (sliceAt data funcStart 600) = true) then none
    else if ¬ (MASCOT_CHARS.any (fun c => containsSeq c (sliceAt data funcStart 600)) = true) then
      none
    else
      match extract_block data funcStart .function with
      | none => none
      | some (blockBytes, blockLen) =>
        match findTextVar blockBytes with
        | none => none
        | some tv =>
          some ⟨.fullFunction, funcStart, blockLen, blockBytes, some nm, rv, fv, tv⟩

/-- Context validation plus span extraction for one return-block anchor
(lines 338-383), without the nesting suppression (done by the caller). -/
def processReturn (data : List Char)
    (m : Nat × (List Char × List Char)) : Option BlockInfo :=
  match m with
  | (returnStart, (rv, fv)) =>
    if ¬ (containsSeq CLAWD_BODY (sliceAt data returnStart 600) = true) then none
    else if ¬ (MASCOT_CHARS.any (fun c => containsSeq c (sliceAt data returnStart 600)) = true) then
      none
    else
      match extract_block data returnStart .ret with
      | none => none
      | some (blockBytes, blockLen) =>
        match findTextVar blockBytes with
        | none => none
        | some tv =>
          some ⟨.returnBlock, returnStart, blockLen, blockBytes, none, rv, fv, tv⟩

/-- The suppression test of lines 330-335: the return match offset lies
inside an already-accepted block's span. -/
def insideSome (blocks : List BlockInfo) (rs : Nat) : Bool :=
  blocks.any (fun fb => decide (fb.offset ≤ rs) && decide (rs < fb.offset + fb.length))

/-- One step of the return-block loop (lines 324-383): skip a match whose
offset is inside an already-collected block, else classify and append. -/
def retStep (data : List Char) (blocks : List BlockInfo)
    (m : Nat × (List Char × List Char)) : List BlockInfo :=
  if insideSome blocks m.1 then blocks
  else
    match processReturn data m with
    | none => blocks
    | some b => blocks ++ [b]

/-- `find_mascot_blocks` (lines 248-385): full-function anchors first, then
return-block anchors, each appended only if its offset is not inside an
already-collected block. -/
def find_mascot_blocks (data : List Char) : List BlockInfo :=
  (findReturnMatches data).foldl (retStep data)
    ((findFullMatches data).filterMap (processFull data))

/-! ## Patch set and transactional apply (`main`, lines 554-824)

A `Plan` is one entry of the `patches` list: `(offset, length, old, new)`.
`FileState` is the target file plus its `.bak` sibling; `Events` are the
outcomes of the four external effects the code treats as succeed/fail:
the `shutil.copy2` backup copy (lines 531-535), the temp-write-and-rename
(lines 760-776), `codesign_binary` (line 780) and `verify_binary_runs`
(line 797).  Every branch of the source's `main` returns 0; the exit code
is the second component. -/

structure Plan where
  off : Nat
  len : Nat
  orig : List Char
  new : List Char
deriving DecidableEq, Repr

def blocksOf (d : List Char) : List BlockInfo := find_mascot_blocks d

/-- Blocks that still need patching (lines 654-662, 681-682). -/
def needsOf (d : List Char) : List BlockInfo :=
  (blocksOf d).filter (fun b => ! is_already_patched b.block)

def planOf (b : BlockInfo) : Option Plan :=
  (build_replacement b).map (fun r => ⟨b.offset, b.length, b.block, r⟩)

/-- Gate 4 (lines 677-693): build a plan for every block needing a patch;
any single failure aborts the whole set. -/
def plansOf (d : List Char) : Option (List Plan) := (needsOf d).mapM planOf

/-- Gate 5 (lines 695-705): every replacement has the original's length. -/
def gate5 (ps : List Plan) : Bool := ps.all (fun p => p.new.length == p.len)

def insertByOff (p : Plan) : List Plan → List Plan
  | [] => [p]
  | q :: t => if q.off ≤ p.off then q :: insertByOff p t else p :: q :: t

/-- `sorted(patches, key=lambda p: p[0])` (line 708): stable sort by offset. -/
def sortPlans (ps : List Plan) : List Plan :=
  ps.foldl (fun acc p => insertByOff p acc) []

/-- Gate 6 (lines 707-718): adjacent sorted plans must not overlap. -/
def gate6 : List Plan → Bool
  | [] => true
  | [_] => true
  | p :: q :: t => decide (p.off + p.len ≤ q.off) && gate6 (q :: t)

/-- The apply loop (lines 741-751): re-check the working copy at each
plan's range against the recorded original bytes before splicing in the
replacement; any mismatch aborts with nothing written. -/
def applyPlans : List Char → List Plan → Option (List Char)
  | img, [] => some img
  | img, p :: ps =>
    if sliceAt img p.off p.len = p.orig then
      applyPlans (writeAt img p.off p.len p.new) ps
    else none

structure FileState where
  target : List Char
  backup : Option (List Char)
deriving DecidableEq, Repr

structure Events where
  backupCopyOk : Bool
  writeOk : Bool
  signOk : Bool
  verifyOk : Bool
deriving DecidableEq, Repr

/-- The pipeline from "Detecting mascot blocks" onward (lines 643-820),
in apply or dry-run mode.  Early returns keep the file state unchanged;
`create_backup` (lines 526-535) never overwrites an existing backup and its
failure is only warned about (lines 730-737); sign or verify failure
restores the backup when one exists (lines 778-810). -/
def runApply (st : FileState) (ev : Events) (dryRun : Bool) : FileState × Nat :=
  if (blocksOf st.target).isEmpty then (st, 0)
  else if (needsOf st.target).isEmpty then (st, 0)
  else
    match plansOf st.target with
    | none => (st, 0)
    | some patches =>
      if ¬ (gate5 patches = true) then (st, 0)
      else if ¬ (gate6 (sortPlans patches) = true) then (st, 0)
      else if dryRun then (st, 0)
      else
        match applyPlans st.target patches with
        | none =>
          (⟨st.target, match st.backup with
            | some b => some b
            | none => if ev.backupCopyOk then some st.target else none⟩, 0)
        | some modified =>
          if modified.length ≠ st.target.length then
            (⟨st.target, match st.backup with
              | some b => some b
              | none => if ev.backupCopyOk then some st.target else none⟩, 0)
          else if ¬ (ev.writeOk = true) then
            (⟨st.target, match st.backup with
              | some b => some b
              | none => if ev.backupCopyOk then some st.target else none⟩, 0)
          else
            match st.backup, ev.backupCopyOk with
            | some b, _ =>
              if ¬ (ev.signOk = true) then (⟨b, some b⟩, 0)
              else if ¬ (ev.verifyOk = true) then (⟨b, some b⟩, 0)
              else (⟨modified, some b⟩, 0)
            | none, true =>
              if ¬ (ev.signOk = true) then (⟨st.target, some st.target⟩, 0)
              else if ¬ (ev.verifyOk = true) then (⟨st.target, some st.target⟩, 0)
              else (⟨modified, some st.target⟩, 0)
            | none, false =>
              if ¬ (ev.signOk = true) then (⟨modified, none⟩, 0)
              else if ¬ (ev.verifyOk = true) then (⟨modified, none⟩, 0)
              else (⟨modified, none⟩, 0)

/-- The CLI-facing gates of `main` before the pipeline (lines 588-635):
binary located, is a file, readable, `--restore` handling, binary runs. -/
structure CliInput where
  binaryFound : Bool
  isFile : Bool
  readable : Bool
  restoreMode : Bool
  runsOk : Bool
  dryRun : Bool
deriving DecidableEq, Repr

def mainClawd (cli : CliInput) (st : FileState) (ev : Events) : FileState × Nat :=
  if ¬ (cli.binaryFound = true) then (st, 0)
  else if ¬ (cli.isFile = true) then (st, 0)
  else if ¬ (cli.readable = true) then (st, 0)
  else if cli.restoreMode then
    match st.backup with
    | none => (st, 0)
    | some b => (⟨b, some b⟩, 0)
  else if ¬ (cli.runsOk = true) then (st, 0)
  else runApply st ev cli.dryRun

/-! ## patch-credential-cache.py (lines 226-310)

Its `main` exits with status 1 when the binary is not found (line 240) and
when `propose_patch` yields an ERROR proposal, which happens exactly when
the `iB.cache?.clear?.()` pattern or the `iB=oR(()=>{` pattern is missing
(lines 153-165, 298-300). -/

/-- Pattern 2 of `search_patterns`: `iB=oR\(\(\)=>\{` (a literal). -/
def hasIbAssign (d : List Char) : Bool :=
  containsSeq (bytesOf ("iB=oR(()=>\x7b")) d

/-- Pattern 3 of `search_patterns`: `iB\.cache\?\.\s*clear\?\.\(\)`. -/
def matchCacheClearAt (s : List Char) : Bool :=
  match matchLit (bytesOf ("iB.cache?.")) s with
  | none => false
  | some r1 =>
    match matchLit (bytesOf ("clear?.()")) (dropSpaceRun r1) with
    | none => false
    | some _ => true

def hasCacheClear : List Char → Bool
  | [] => false
  | c :: t => matchCacheClearAt (c :: t) || hasCacheClear t

/-- Exit code of `patch-credential-cache.py`'s `main`. -/
def credMainExit (binaryFound : Bool) (data : List Char) : Nat :=
  if ¬ (binaryFound = true) then 1
  else if ¬ (hasCacheClear data = true) then 1
  else if ¬ (hasIbAssign data = true) then 1
  else 0

/-! ## Depth traces and balance points (for the Delimiter Extractor) -/

/-- Running depth of the first `k` bytes of `s`: openers minus closers. -/
def depthAt (oc cc : Char) (s : List Char) (k : Nat) : Int :=
  (((s.take k).count oc : Int)) - (((s.take k).count cc : Int))

/-- The scan window balances at position `k` (1-based): the `k`-th byte is a
closer, an opener was seen strictly before it, and the depth over the first
`k` bytes is 0 — exactly the loop's stopping condition in `_extract_block`. -/
def balancesAt (oc cc : Char) (s : List Char) (k : Nat) : Prop :=
  (∃ j < k, j + 1 < k ∧ s[j]? = some oc) ∧ s[k-1]? = some cc ∧
    depthAt oc cc s k = 0

instance (oc cc : Char) (s : List Char) (k : Nat) :
    Decidable (balancesAt oc cc s k) := by
  unfold balancesAt; infer_instance

/-- An opener was seen among the first `i` bytes (the loop's `started`). -/
def startedAt (oc : Char) (s : List Char) (i : Nat) : Bool :=
  decide (oc ∈ s.take i)

/-- `N` correctly nested delimiter pairs. -/
def nestChunk (oc cc : Char) (n : Nat) : List Char :=
  List.replicate n oc ++ List.replicate n cc

/-! ## Range predicates -/

/-- Two plans touch disjoint byte ranges. -/
def PlanDisjoint (p q : Plan) : Prop :=
  p.off + p.len ≤ q.off ∨ q.off + q.len ≤ p.off

instance (p q : Plan) : Decidable (PlanDisjoint p q) := by
  unfold PlanDisjoint; infer_instance

/-- The half-open ranges `[off, off+len)` of two plans intersect. -/
def RangesIntersect (p q : Plan) : Prop :=
  ∃ x, (p.off ≤ x ∧ x < p.off + p.len) ∧ (q.off ≤ x ∧ x < q.off + q.len)

/-- The sorted patch list the overlap gate inspects. -/
def sortedPlansOf (d : List Char) : List Plan := sortPlans ((plansOf d).getD [])

/-! ## Concrete inputs used by the witnesses and counterexamples -/

def evAll : Events := ⟨true, true, true, true⟩
def evNoBackup : Events := ⟨false, true, true, true⟩

/-- A synthetic 423-byte image holding one full-function mascot block whose
`clawd_body` markers all sit inside the block itself; the block's length
exceeds the rendered core by 5. -/
def cexData : List Char :=
  bytesOf ("function W()\x7breturn R.createElement(F,\x7bflexDirection:\"column\",alignItems:\"center\"\x7d,R.createElement(T,\x7bcolor:\"clawd_body\"\x7d,\" \\u25CF \"),R.createElement(T,\x7bcolor:\"clawd_body\"\x7d,\"")
    ++ List.replicate 245 'x' ++ bytesOf ("\"))\x7d")

/-- A standalone return-block region with its own markers. -/
def retRegion : List Char :=
  bytesOf ("return R.createElement(F,\x7bflexDirection:\"column\",alignItems:\"center\"\x7d,R.createElement(T,\x7bcolor:\"clawd_body\"\x7d,\" \\u25CF \"))")

/-- A buffer with one full-function block and one independent return block. -/
def c8Data : List Char := cexData ++ bytesOf (";") ++ retRegion

def c8FullB : BlockInfo :=
  ⟨.fullFunction, 0, 423, sliceAt c8Data 0 423, some (bytesOf ("W")),
    bytesOf ("R"), bytesOf ("F"), bytesOf ("T")⟩

def c8RetB : BlockInfo :=
  ⟨.returnBlock, 424, 121, sliceAt c8Data 424 121, none,
    bytesOf ("R"), bytesOf ("F"), bytesOf ("T")⟩

/-- A full-function mascot block nested inside another full-function mascot
block: both are detected, and their plans' ranges overlap. -/
def innerB : List Char :=
  bytesOf ("function B()\x7breturn R.createElement(F,\x7bflexDirection:\"column\",alignItems:\"center\"\x7d,R.createElement(T,\x7bcolor:\"clawd_body\"\x7d,\" \\u25CF \"),R.createElement(T,\x7bcolor:\"clawd_body\"\x7d,\"")
    ++ List.replicate 243 'x' ++ bytesOf ("\"))\x7d")

def c6Data : List Char :=
  bytesOf ("function A()\x7breturn R.createElement(F,\x7bflexDirection:\"column\",alignItems:\"center\"\x7d,R.createElement(T,\x7bcolor:\"clawd_body\"\x7d,\"")
    ++ List.replicate 10 'y' ++ bytesOf ("\"),") ++ innerB ++ bytesOf (")\x7d")

def c6P0 : Plan := ((sortedPlansOf c6Data)[0]?).getD ⟨0, 0, [], []⟩
def c6P1 : Plan := ((sortedPlansOf c6Data)[1]?).getD ⟨0, 0, [], []⟩

/-- A return-kind block whose length equals the rendered core exactly. -/
def cw1Block : BlockInfo :=
  ⟨.returnBlock, 0, 404, [], none, bytesOf ("R"), bytesOf ("F"), bytesOf ("T")⟩

/-- A return-kind block with deficit 47. -/
def cw47Block : BlockInfo :=
  ⟨.returnBlock, 0, 451, [], none, bytesOf ("R"), bytesOf ("F"), bytesOf ("T")⟩

/-- A block shorter than any rendered candidate. -/
def cwShortBlock : BlockInfo :=
  ⟨.returnBlock, 0, 100, [], none, bytesOf ("R"), bytesOf ("F"), bytesOf ("T")⟩

def cw1Img : List Char := bytesOf ("abcdef")
def cw1Plan : Plan := ⟨2, 2, bytesOf ("cd"), bytesOf ("XY")⟩

/-- A plan whose recorded original bytes do not match the image. -/
def cw3Plan : Plan := ⟨0, 2, bytesOf ("zz"), bytesOf ("qq")⟩

def cli0 : CliInput := ⟨true, true, true, false, true, false⟩

def c5WData : List Char := bytesOf ("\x7b\x7b\x7d\x7d")
def c5FData : List Char := bytesOf ("(((")

/-- An already-patched image: the patched output of `cexData` with a
`clawd_body` marker within the block's 600-byte context window, so the
second scan re-detects the block and classifies it as already patched. -/
def c2WData : List Char :=
  (runApply ⟨cexData, none⟩ evAll false).1.target ++ bytesOf (";clawd_body")

/-- Lines 741-776 with the on-disk bytes at apply time made explicit: the
apply loop checks each plan's range — against the in-memory working copy
(`bytearray(data)`, line 741), where `data` is the single read of the
target at lines 639-640 — and uses the plan's `original_bytes`; the
on-disk content `diskNow` at apply time is never re-read, and on success
the temp-file rename (line 766) replaces it with the bytes computed from
the stale snapshot. -/
def applyAndWrite (scanData diskNow : List Char) (patches : List Plan) : List Char :=
  match applyPlans scanData patches with
  | none => diskNow
  | some modified =>
    if modified.length ≠ scanData.length then diskNow else modified

/-- `cexData` as changed on disk between the scan-time read and apply time:
the first byte differs, so the on-disk content at every plan's range
differs from the plan's recorded `original_bytes`. -/
def c3Disk : List Char := bytesOf ("X") ++ cexData.drop 1

/-- A buffer holding the credential-cache script's cache-clear pattern but
not its `iB` assignment pattern. -/
def c9CCData : List Char := bytesOf ("iB.cache?.clear?.()")

/-! # Theorems -/

/-! ## Length arithmetic of the rendered candidate -/

lemma padChars_length (k : Nat) : (padChars k).length = 3 * k := by
  induction k with
  | zero => rfl
  | succ n ih =>
    show (bytesOf (",\"\"") ++ padChars n).length = 3 * (n + 1)
    rw [List.length_append, ih]
    have e : (bytesOf (",\"\"")).length = 3 := rfl
    omega

lemma renderCore_length (b : BlockInfo) (r3 pad : List Char) :
    (renderCore b r3 pad).length + ROW3_BASE.length =
      (renderCore b ROW3_BASE []).length + r3.length + pad.length := by
  obtain ⟨k, off, len, blk, fn, rv, fv, tv⟩ := b
  cases k <;>
    simp [renderCore, innerR, row1R, row2R, row2WingR, row2EyeR, row3R,
      List.length_append] <;>
    omega

lemma buildStage2_eq (b : BlockInfo) (r3 : List Char) (k : Nat)
    (h : b.length = (renderCore b r3 []).length + 3 * k) :
    buildStage2 b r3 = some (renderCore b r3 (padChars k)) ∧
      (renderCore b r3 (padChars k)).length = b.length := by
  have h1 := renderCore_length b r3 (padChars k)
  have h2 := renderCore_length b r3 []
  have h3 := padChars_length k
  simp only [List.length_nil] at h1 h2
  have hlen : (renderCore b r3 (padChars k)).length =
      (renderCore b r3 []).length + 3 * k := by omega
  have hδ : ((b.length : Int) - ((renderCore b r3 []).length : Int)) = 3 * (k : Int) := by
    omega
  have ek : ((3 * (k : Int)) / 3).toNat = k := by omega
  unfold buildStage2
  rw [hδ, ek]
  rw [if_neg (by omega : ¬ ((3 * (k : Int)) % 3 ≠ 0))]
  rw [if_neg (by omega : ¬ ((3 * (k : Int)) / 3 < 0))]
  rw [if_neg (by omega : ¬ ((renderCore b r3 (padChars k)).length ≠ b.length))]
  exact ⟨rfl, by omega⟩

lemma buildStage2_some_length (b : BlockInfo) (r3 r : List Char)
    (h : buildStage2 b r3 = some r) : r.length = b.length := by
  unfold buildStage2 at h
  split at h
  · exact absurd h (by simp)
  · split at h
    · exact absurd h (by simp)
    · split at h
      · exact absurd h (by simp)
      · rename_i h3
        obtain rfl : _ = r := Option.some.inj h
        omega

lemma buildStage2_some_shape (b : BlockInfo) (r3 r : List Char)
    (h : buildStage2 b r3 = some r) :
    ∃ pad, r = renderCore b r3 pad := by
  unfold buildStage2 at h
  split at h
  · exact absurd h (by simp)
  · split at h
    · exact absurd h (by simp)
    · split at h
      · exact absurd h (by simp)
      · exact ⟨_, (Option.some.inj h).symm⟩

lemma build_replacement_succeeds (b : BlockInfo) (d : Nat)
    (h : b.length = (renderCore b ROW3_BASE []).length + d) :
    ∃ r, build_replacement b = some r ∧ r.length = b.length := by
  have hδ : ((b.length : Int) - ((renderCore b ROW3_BASE []).length : Int)) = (d : Int) := by
    omega
  have hP1 : (renderCore b ROW3_PLUS1 []).length = (renderCore b ROW3_BASE []).length + 1 := by
    have h1 := renderCore_length b ROW3_PLUS1 []
    have e1 : ROW3_PLUS1.length = ROW3_BASE.length + 1 := by decide
    simp only [List.length_nil] at h1
    omega
  have hP2 : (renderCore b ROW3_PLUS2 []).length = (renderCore b ROW3_BASE []).length + 2 := by
    have h1 := renderCore_length b ROW3_PLUS2 []
    have e1 : ROW3_PLUS2.length = ROW3_BASE.length + 2 := by decide
    simp only [List.length_nil] at h1
    omega
  unfold build_replacement
  rw [hδ]
  rcases Nat.eq_zero_or_pos d with hd0 | hdpos
  · rw [if_neg (by omega : ¬ ((d : Int) < 0))]
    rw [if_pos (by omega : ((d : Int) = 0))]
    exact ⟨_, rfl, by omega⟩
  · rw [if_neg (by omega : ¬ ((d : Int) < 0))]
    rw [if_neg (by omega : ¬ ((d : Int) = 0))]
    have hm := Nat.mod_lt d (show 0 < 3 by norm_num)
    rcases hrem : d % 3 with _ | _ | _ | n
    · rw [if_neg (by omega : ¬ ((d : Int) % 3 = 1))]
      rw [if_neg (by omega : ¬ ((d : Int) % 3 = 2))]
      obtain ⟨he, hl⟩ := buildStage2_eq b ROW3_BASE (d / 3) (by omega)
      exact ⟨_, he, hl⟩
    · rw [if_pos (by omega : ((d : Int) % 3 = 1))]
      obtain ⟨he, hl⟩ := buildStage2_eq b ROW3_PLUS1 ((d - 1) / 3) (by omega)
      exact ⟨_, he, hl⟩
    · rw [if_neg (by omega : ¬ ((d : Int) % 3 = 1))]
      rw [if_pos (by omega : ((d : Int) % 3 = 2))]
      obtain ⟨he, hl⟩ := buildStage2_eq b ROW3_PLUS2 ((d - 2) / 3) (by omega)
      exact ⟨_, he, hl⟩
    · omega

/-- C1 (builder part helper): any successful replacement has the block's
exact length. -/
lemma build_replacement_some_length (b : BlockInfo) (r : List Char)
    (h : build_replacement b = some r) : r.length = b.length := by
  unfold build_replacement at h
  split at h
  · exact absurd h (by simp)
  · split at h
    · rename_i h2
      obtain rfl : _ = r := Option.some.inj h
      omega
    · split at h
      · exact buildStage2_some_length _ _ _ h
      · split at h
        · exact buildStage2_some_length _ _ _ h
        · exact buildStage2_some_length _ _ _ h

/-! ## Apply-loop length preservation -/

lemma writeAt_length (img : List Char) (off len : Nat) (new : List Char)
    (hnew : new.length = len) (hfit : (sliceAt img off len).length = len) :
    (writeAt img off len new).length = img.length := by
  simp only [sliceAt, List.length_take, List.length_drop] at hfit
  simp only [writeAt, List.length_append, List.length_take, List.length_drop]
  omega

lemma applyPlans_length (plans : List Plan) :
    ∀ (img out : List Char),
      (∀ p ∈ plans, p.new.length = p.orig.length ∧ p.orig.length = p.len) →
      applyPlans img plans = some out → out.length = img.length := by
  induction plans with
  | nil =>
    intro img out _ h
    simp only [applyPlans] at h
    obtain rfl : img = out := Option.some.inj h
    rfl
  | cons p ps ih =>
    intro img out hall h
    simp only [applyPlans] at h
    split at h
    · rename_i hs
      obtain ⟨h1, h2⟩ := hall p (List.mem_cons_self p ps)
      have hfit : (sliceAt img p.off p.len).length = p.len := by rw [hs]; omega
      have hw := writeAt_length img p.off p.len p.new (by omega) hfit
      have := ih (writeAt img p.off p.len p.new) out
        (fun q hq => hall q (List.mem_cons_of_mem _ hq)) h
      omega
    · exact absurd h (by simp)

/-- C1: a successful `build_replacement` returns bytes of exactly the
block's original length, and applying a set of length-preserving plans
(each `new` the same length as the recorded `original_bytes`, which have
the plan's `length`) leaves the in-memory image's total length unchanged. -/
theorem c1_length_invariance :
    (∀ (b : BlockInfo) (r : List Char),
      build_replacement b = some r → r.length = b.length) ∧
    (∀ (img : List Char) (plans : List Plan) (out : List Char),
      (∀ p ∈ plans, p.new.length = p.orig.length ∧ p.orig.length = p.len) →
      applyPlans img plans = some out → out.length = img.length) :=
  ⟨build_replacement_some_length,
   fun img plans out h1 h2 => applyPlans_length plans img out h1 h2⟩

theorem c1_witness :
    ((build_replacement cw1Block).map List.length = some cw1Block.length) ∧
    ((applyPlans cw1Img [cw1Plan]).map List.length = some cw1Img.length) := by
  constructor
  · rcases hb : build_replacement cw1Block with _ | r
    · exact absurd hb (by decide)
    · exact congrArg some (c1_length_invariance.1 cw1Block r hb)
  · rcases ha : applyPlans cw1Img [cw1Plan] with _ | out
    · exact absurd ha (by decide)
    · exact congrArg some (c1_length_invariance.2 cw1Img [cw1Plan] out (by decide) ha)

/-- C4: for any block whose length exceeds the rendered core by a deficit
`d ∈ {0, 1, 2, 3, 4, 5, 47}` the builder returns a candidate of exactly the
target length, and for a negative deficit it fails with no bytes. -/
theorem c4_padding_solver :
    (∀ (b : BlockInfo) (d : Nat), d ∈ [0, 1, 2, 3, 4, 5, 47] →
      b.length = (renderCore b ROW3_BASE []).length + d →
      ∃ r, build_replacement b = some r ∧ r.length = b.length) ∧
    (∀ b : BlockInfo,
      ((b.length : Int) - ((renderCore b ROW3_BASE []).length : Int)) < 0 →
      build_replacement b = none) := by
  constructor
  · exact fun b d _ h => build_replacement_succeeds b d h
  · intro b h
    unfold build_replacement
    rw [if_pos h]

theorem c4_witness :
    ((build_replacement cw47Block).map List.length = some cw47Block.length) ∧
    build_replacement cwShortBlock = none := by
  constructor
  · obtain ⟨r, hr, hl⟩ := c4_padding_solver.1 cw47Block 47 (by decide) (by decide)
    rw [hr]
    exact congrArg some hl
  · exact c4_padding_solver.2 cwShortBlock (by decide)

/-! ## Fingerprint containment -/

lemma listLeads_refl_append (pat t : List Char) : listLeads pat (pat ++ t) = true := by
  induction pat with
  | nil => rfl
  | cons p pt ih => simp [listLeads, ih]

lemma containsSeq_cons (pat : List Char) (c : Char) (t : List Char)
    (h : containsSeq pat t = true) : containsSeq pat (c :: t) = true := by
  show (listLeads pat (c :: t) || containsSeq pat t) = true
  rw [h, Bool.or_true]

lemma containsSeq_head (pat y : List Char) : containsSeq pat (pat ++ y) = true := by
  rcases pat with _ | ⟨p, pt⟩
  · show containsSeq [] y = true
    cases y
    · rfl
    · rfl
  · show (listLeads (p :: pt) (p :: (pt ++ y)) || containsSeq (p :: pt) (pt ++ y)) = true
    have h := listLeads_refl_append (p :: pt) y
    rw [List.cons_append] at h
    rw [h, Bool.true_or]

lemma containsSeq_of_mid (pat x y : List Char) :
    containsSeq pat (x ++ pat ++ y) = true := by
  induction x with
  | nil => exact containsSeq_head pat y
  | cons c t ih => exact containsSeq_cons pat c _ ih

lemma fingerprint_in_renderCore (b : BlockInfo) (r3 pad : List Char) :
    is_already_patched (renderCore b r3 pad) = true := by
  have h1 : PATCHED_FINGERPRINT =
      bytesOf ("color:\"") ++ ROW1_COLOR ++ bytesOf ("\"\x7d,") ++ ROW1_STR := by decide
  have h2 : bytesOf (",\x7bcolor:\"") =
      bytesOf (",\x7b") ++ bytesOf ("color:\"") := by decide
  obtain ⟨k, off, len, blk, fn, rv, fv, tv⟩ := b
  unfold is_already_patched
  cases k
  · have hd : renderCore ⟨.fullFunction, off, len, blk, fn, rv, fv, tv⟩ r3 pad =
        (bytesOf ("function ") ++ fn.getD [] ++ bytesOf ("()\x7breturn ") ++
          rv ++ CE ++ fv ++
          bytesOf (",\x7bflexDirection:\"column\",alignItems:\"center\"\x7d,") ++
          rv ++ CE ++ tv ++ bytesOf (",\x7b")) ++ PATCHED_FINGERPRINT ++
        (pad ++ bytesOf (")") ++ bytesOf (",") ++
          row2R ⟨.fullFunction, off, len, blk, fn, rv, fv, tv⟩ ++ bytesOf (",") ++
          row3R ⟨.fullFunction, off, len, blk, fn, rv, fv, tv⟩ r3 ++ bytesOf (")") ++
          bytesOf ("\x7d")) := by
      rw [h1]
      simp only [renderCore, innerR, row1R, h2, List.append_assoc]
    rw [hd]
    exact containsSeq_of_mid _ _ _
  · have hd : renderCore ⟨.returnBlock, off, len, blk, fn, rv, fv, tv⟩ r3 pad =
        (bytesOf ("return ") ++ rv ++ CE ++ fv ++
          bytesOf (",\x7bflexDirection:\"column\",alignItems:\"center\"\x7d,") ++
          rv ++ CE ++ tv ++ bytesOf (",\x7b")) ++ PATCHED_FINGERPRINT ++
        (pad ++ bytesOf (")") ++ bytesOf (",") ++
          row2R ⟨.returnBlock, off, len, blk, fn, rv, fv, tv⟩ ++ bytesOf (",") ++
          row3R ⟨.returnBlock, off, len, blk, fn, rv, fv, tv⟩ r3 ++ bytesOf (")")) := by
      rw [h1]
      simp only [renderCore, innerR, row1R, h2, List.append_assoc]
    rw [hd]
    exact containsSeq_of_mid _ _ _

/-- C10: every byte string the builder returns with success contains the
patched fingerprint, so `is_already_patched` holds of it, for both block
kinds and every padding amount. -/
theorem c10_fingerprint (b : BlockInfo) (r : List Char)
    (h : build_replacement b = some r) : is_already_patched r = true := by
  unfold build_replacement at h
  split at h
  · exact absurd h (by simp)
  · split at h
    · obtain rfl : _ = r := Option.some.inj h
      exact fingerprint_in_renderCore b ROW3_BASE []
    · split at h
      · obtain ⟨pad, rfl⟩ := buildStage2_some_shape _ _ _ h
        exact fingerprint_in_renderCore b ROW3_PLUS1 pad
      · split at h
        · obtain ⟨pad, rfl⟩ := buildStage2_some_shape _ _ _ h
          exact fingerprint_in_renderCore b ROW3_PLUS2 pad
        · obtain ⟨pad, rfl⟩ := buildStage2_some_shape _ _ _ h
          exact fingerprint_in_renderCore b ROW3_BASE pad

theorem c10_witness :
    (build_replacement cw47Block).map is_already_patched = some true := by
  rcases hb : build_replacement cw47Block with _ | r
  · exact absurd hb (by decide)
  · exact congrArg some (c10_fingerprint cw47Block r hb)

/-! ## Second-run behaviour -/

/-- C2 (amended): if every block the scan detects in an image is already
patched (carries the fingerprint), the apply pipeline leaves the file state
unchanged and reports zero blocks needing patching. -/
theorem c2_second_run_nothing_to_do (st : FileState) (ev : Events) (dryRun : Bool)
    (h : ∀ b ∈ blocksOf st.target, is_already_patched b.block = true) :
    (runApply st ev dryRun).1 = st ∧ (needsOf st.target).length = 0 := by
  have hn : needsOf st.target = [] := by
    simp only [needsOf, List.filter_eq_nil_iff]
    intro b hb
    simp [h b hb]
  constructor
  · unfold runApply
    by_cases hbe : (blocksOf st.target).isEmpty = true
    · rw [if_pos hbe]
    · rw [if_neg hbe, if_pos (by simp [hn] : (needsOf st.target).isEmpty = true)]
  · simp [hn]

theorem c2_witness :
    (blocksOf c2WData).length = 1 ∧
    (runApply ⟨c2WData, none⟩ evAll false).1 = (⟨c2WData, none⟩ : FileState) ∧
    (needsOf c2WData).length = 0 :=
  ⟨by decide,
   (c2_second_run_nothing_to_do ⟨c2WData, none⟩ evAll false (by decide)).1,
   (c2_second_run_nothing_to_do ⟨c2WData, none⟩ evAll false (by decide)).2⟩

/-- C2 counterexample: on `cexData` the first run patches its single block
(changing the bytes), yet re-scanning the patched image detects no blocks at
all — the previously patched block is not re-detected, because its
`clawd_body` context marker was replaced. -/
theorem c2_counterexample :
    (needsOf cexData).length = 1 ∧
    (runApply ⟨cexData, none⟩ evAll false).1.target ≠ cexData ∧
    blocksOf ((runApply ⟨cexData, none⟩ evAll false).1.target) = [] := by
  decide

/-! ## Exit codes -/

set_option maxHeartbeats 1600000 in
lemma runApply_exit (st : FileState) (ev : Events) (dryRun : Bool) :
    (runApply st ev dryRun).2 = 0 := by
  unfold runApply
  repeat' split
  all_goals rfl

set_option maxHeartbeats 1600000 in
lemma mainClawd_exit (cli : CliInput) (st : FileState) (ev : Events) :
    (mainClawd cli st ev).2 = 0 := by
  unfold mainClawd
  repeat' split
  all_goals first
    | rfl
    | exact runApply_exit st ev cli.dryRun

/-- C9 (amended): every path of patch-clawd.py's `main` — including every
failure path — returns the neutral status 0; the auxiliary
patch-credential-cache.py script, however, exits 1 when the binary is not
found or when a critical pattern is missing. -/
theorem c9_exit_codes :
    (∀ (cli : CliInput) (st : FileState) (ev : Events),
      (mainClawd cli st ev).2 = 0) ∧
    (∀ d : List Char, credMainExit false d = 1) ∧
    (∀ d : List Char, hasCacheClear d = false → credMainExit true d = 1) ∧
    (∀ d : List Char, hasIbAssign d = false → credMainExit true d = 1) := by
  refine ⟨mainClawd_exit, fun d => rfl, fun d h => ?_, fun d h => ?_⟩
  · unfold credMainExit
    rw [if_neg (by simp), if_pos (by simp [h])]
  · unfold credMainExit
    rw [if_neg (by simp)]
    by_cases hc : hasCacheClear d = true
    · rw [if_neg (not_not_intro hc), if_pos (by simp [h])]
    · rw [if_pos hc]

theorem c9_witness :
    (mainClawd cli0 ⟨[], none⟩ evAll).2 = 0 ∧
    credMainExit false [] = 1 ∧ credMainExit true [] = 1 ∧
    credMainExit true c9CCData = 1 :=
  ⟨c9_exit_codes.1 cli0 ⟨[], none⟩ evAll, c9_exit_codes.2.1 [],
    c9_exit_codes.2.2.1 [] (by decide),
    c9_exit_codes.2.2.2 c9CCData (by decide)⟩

/-- C9 counterexample: patch-credential-cache.py's `main` exits with the
hard-failure status 1 when the binary cannot be found. -/
theorem c9_counterexample : credMainExit false [] ≠ 0 := by decide

/-! ## Backup discipline -/

set_option maxHeartbeats 1600000 in
/-- C7 (amended): an existing backup is never overwritten, and when no
backup exists, the backup copy succeeds, and the pipeline modifies the
target, the backup holds the original image.  (When the backup copy fails
the code warns and proceeds without a backup — see `c7_counterexample`.) -/
theorem c7_backup_discipline (st : FileState) (ev : Events) (dryRun : Bool) :
    (∀ b, st.backup = some b → ((runApply st ev dryRun).1).backup = some b) ∧
    (st.backup = none → ev.backupCopyOk = true →
      ((runApply st ev dryRun).1).target ≠ st.target →
      ((runApply st ev dryRun).1).backup = some st.target) := by
  obtain ⟨tgt, bak⟩ := st
  constructor
  · intro b hb
    obtain rfl : bak = some b := hb
    unfold runApply
    repeat' split
    all_goals first
      | rfl
      | simp_all
  · intro hb hcopy
    obtain rfl : bak = none := hb
    show ((runApply ⟨tgt, none⟩ ev dryRun).1).target ≠ tgt →
      ((runApply ⟨tgt, none⟩ ev dryRun).1).backup = some tgt
    unfold runApply
    rw [hcopy]
    repeat' split
    all_goals intro hne
    all_goals first
      | rfl
      | exact absurd rfl hne
      | simp_all

theorem c7_witness :
    ((runApply ⟨bytesOf ("a"), some (bytesOf ("b"))⟩ evAll false).1).backup =
      some (bytesOf ("b")) ∧
    ((runApply ⟨cexData, none⟩ evAll false).1).backup = some cexData :=
  ⟨(c7_backup_discipline ⟨bytesOf ("a"), some (bytesOf ("b"))⟩ evAll false).1
      (bytesOf ("b")) rfl,
   (c7_backup_discipline ⟨cexData, none⟩ evAll false).2 rfl rfl (by decide)⟩

/-- C7 counterexample: when no backup exists and the backup copy fails, the
pipeline still writes the patched image — the target changes with no backup
of the original in existence. -/
theorem c7_counterexample :
    (runApply ⟨cexData, none⟩ evNoBackup false).1.target ≠ cexData ∧
    (runApply ⟨cexData, none⟩ evNoBackup false).1.backup = none := by
  decide

/-! ## Overlap rejection -/

lemma gate6_spec : ∀ (l : List Plan), gate6 l = true → ∀ (i : Nat) (p q : Plan),
    l[i]? = some p → l[i + 1]? = some q → p.off + p.len ≤ q.off := by
  intro l
  induction l with
  | nil =>
    intro _ i p q hp _
    simp at hp
  | cons a t ih =>
    intro hg i p q hp hq
    cases t with
    | nil =>
      rcases i with _ | n <;> simp at hq
    | cons b t2 =>
      have hg' : (decide (a.off + a.len ≤ b.off) && gate6 (b :: t2)) = true := hg
      rw [Bool.and_eq_true, decide_eq_true_eq] at hg'
      obtain ⟨h1, h2⟩ := hg'
      rcases i with _ | n
      · simp only [List.getElem?_cons_zero] at hp
        simp only [List.getElem?_cons_succ, List.getElem?_cons_zero] at hq
        obtain rfl : a = p := Option.some.inj hp
        obtain rfl : b = q := Option.some.inj hq
        exact h1
      · rw [List.getElem?_cons_succ] at hp hq
        exact ih h2 n p q hp hq

set_option maxHeartbeats 1600000 in
/-- C6: if any adjacent pair in the offset-sorted patch list has
intersecting `[offset, offset+length)` ranges, the pipeline rejects the set
and leaves the file state (target and backup) untouched. -/
theorem c6_overlap_rejection (st : FileState) (ev : Events) (dryRun : Bool)
    (i : Nat) (p q : Plan)
    (hp : (sortedPlansOf st.target)[i]? = some p)
    (hq : (sortedPlansOf st.target)[i + 1]? = some q)
    (hint : RangesIntersect p q) :
    (runApply st ev dryRun).1 = st := by
  obtain ⟨x, ⟨hx1, hx2⟩, hx3, hx4⟩ := hint
  have hover : ¬ (p.off + p.len ≤ q.off) := by omega
  unfold runApply
  by_cases h1 : (blocksOf st.target).isEmpty = true
  · rw [if_pos h1]
  · rw [if_neg h1]
    by_cases h2 : (needsOf st.target).isEmpty = true
    · rw [if_pos h2]
    · rw [if_neg h2]
      rcases hpl : plansOf st.target with _ | patches
      · rfl
      · dsimp only
        by_cases h5 : gate5 patches = true
        · rw [if_neg (not_not_intro h5)]
          have h6 : ¬ (gate6 (sortPlans patches) = true) := by
            intro hgs
            refine hover (gate6_spec _ hgs i p q ?_ ?_)
            · unfold sortedPlansOf at hp
              rw [hpl] at hp
              exact hp
            · unfold sortedPlansOf at hq
              rw [hpl] at hq
              exact hq
          rw [if_pos h6]
        · rw [if_pos h5]

theorem c6_witness :
    (runApply ⟨c6Data, none⟩ evAll false).1 = (⟨c6Data, none⟩ : FileState) :=
  c6_overlap_rejection ⟨c6Data, none⟩ evAll false 0 c6P0 c6P1
    (by decide) (by decide) ⟨136, by decide, by decide⟩

/-! ## Race guard -/

lemma sliceAt_writeAt_disjoint (img : List Char) (o l : Nat) (new : List Char)
    (hnew : new.length = l) (ho : o + l ≤ img.length)
    (po pl : Nat) (hd : po + pl ≤ o ∨ o + l ≤ po) :
    sliceAt (writeAt img o l new) po pl = sliceAt img po pl := by
  unfold sliceAt writeAt
  have hA : (img.take o).length = o := by
    rw [List.length_take]
    omega
  rcases hd with hd | hd
  · rw [List.append_assoc, List.drop_append_eq_append_drop, hA,
      (by omega : po - o = 0), List.drop_zero,
      List.take_append_eq_append_take]
    have hlen : ((img.take o).drop po).length = o - po := by
      rw [List.length_drop, hA]
    rw [hlen, (by omega : pl - (o - po) = 0), List.take_zero, List.append_nil,
      List.drop_take, List.take_take]
    congr 1
    omega
  · rw [List.append_assoc, List.drop_append_eq_append_drop, hA,
      List.drop_eq_nil_of_le (by rw [hA]; omega), List.nil_append,
      List.drop_append_eq_append_drop, hnew,
      List.drop_eq_nil_of_le (by omega : new.length ≤ po - o), List.nil_append,
      List.drop_drop]
    congr 2
    omega

lemma applyPlans_abort : ∀ (plans : List Plan) (img : List Char) (p : Plan),
    p ∈ plans → plans.Pairwise PlanDisjoint →
    (∀ q ∈ plans, q.new.length = q.len ∧ q.orig.length = q.len ∧
      q.off + q.len ≤ img.length) →
    sliceAt img p.off p.len ≠ p.orig →
    applyPlans img plans = none := by
  intro plans
  induction plans with
  | nil =>
    intro img p hp
    exact absurd hp (List.not_mem_nil p)
  | cons a t ih =>
    intro img p hp hpw hall hne
    rcases List.mem_cons.mp hp with rfl | hpt
    · show (if sliceAt img p.off p.len = p.orig then
        applyPlans (writeAt img p.off p.len p.new) t else none) = none
      rw [if_neg hne]
    · show (if sliceAt img a.off a.len = a.orig then
        applyPlans (writeAt img a.off a.len a.new) t else none) = none
      by_cases hs : sliceAt img a.off a.len = a.orig
      · rw [if_pos hs]
        obtain ⟨ha1, ha2, ha3⟩ := hall a (List.mem_cons_self a t)
        have hfit : (sliceAt img a.off a.len).length = a.len := by
          rw [hs]; omega
        have hwlen : (writeAt img a.off a.len a.new).length = img.length :=
          writeAt_length img a.off a.len a.new ha1 hfit
        have hdisj : ∀ q ∈ t, PlanDisjoint a q := (List.pairwise_cons.mp hpw).1
        apply ih (writeAt img a.off a.len a.new) p hpt (List.pairwise_cons.mp hpw).2
        · intro q hq
          obtain ⟨hq1, hq2, hq3⟩ := hall q (List.mem_cons_of_mem _ hq)
          exact ⟨hq1, hq2, by rw [hwlen]; exact hq3⟩
        · rw [sliceAt_writeAt_disjoint img a.off a.len a.new ha1 ha3 p.off p.len
            (Or.symm (hdisj p hpt))]
          exact hne
      · rw [if_neg hs]

set_option maxHeartbeats 1600000 in
/-- C3 (amended): the applier's race check compares each plan's range
against the in-memory working copy — initialized from the single scan-time
read — not the disk: given in-bounds, pairwise-disjoint, length-preserving
plans, a working-copy mismatch with any plan's recorded `original_bytes`
aborts the loop with nothing applied; and whenever the apply loop aborts,
the pipeline leaves the target byte-for-byte untouched. -/
theorem c3_race_guard :
    (∀ (img : List Char) (plans : List Plan) (p : Plan),
      p ∈ plans → plans.Pairwise PlanDisjoint →
      (∀ q ∈ plans, q.new.length = q.len ∧ q.orig.length = q.len ∧
        q.off + q.len ≤ img.length) →
      sliceAt img p.off p.len ≠ p.orig →
      applyPlans img plans = none) ∧
    (∀ (st : FileState) (ev : Events),
      ((plansOf st.target).bind (applyPlans st.target)) = none →
      (runApply st ev false).1.target = st.target) := by
  constructor
  · exact fun img plans p h1 h2 h3 h4 => applyPlans_abort plans img p h1 h2 h3 h4
  · intro st ev h
    unfold runApply
    by_cases h1 : (blocksOf st.target).isEmpty = true
    · rw [if_pos h1]
    · rw [if_neg h1]
      by_cases h2 : (needsOf st.target).isEmpty = true
      · rw [if_pos h2]
      · rw [if_neg h2]
        rcases hpl : plansOf st.target with _ | patches
        · rfl
        · dsimp only
          rw [hpl] at h
          have h' : applyPlans st.target patches = none := h
          by_cases h5 : gate5 patches = true
          · rw [if_neg (not_not_intro h5)]
            by_cases h6 : gate6 (sortPlans patches) = true
            · rw [if_neg (not_not_intro h6)]
              rw [if_neg (by simp : ¬ (false = true))]
              rw [h']
            · rw [if_pos h6]
          · rw [if_pos h5]

theorem c3_witness :
    applyPlans cw1Img [cw3Plan] = none ∧
    (runApply ⟨c6Data, none⟩ evAll false).1.target = c6Data :=
  ⟨c3_race_guard.1 cw1Img [cw3Plan] cw3Plan (by decide) (by simp)
      (by decide) (by decide),
   c3_race_guard.2 ⟨c6Data, none⟩ evAll (by decide)⟩

/-- C3 counterexample: the race guard never reads the disk.  With the
on-disk content changed at every plan's range between the scan-time read
and apply time, the apply loop — which checks only the stale in-memory
working copy — still writes, replacing the changed on-disk bytes instead
of aborting and leaving them untouched. -/
theorem c3_counterexample :
    ((plansOf cexData).getD []).length = 1 ∧
    (∀ p ∈ (plansOf cexData).getD [], sliceAt c3Disk p.off p.len ≠ p.orig) ∧
    applyAndWrite cexData c3Disk ((plansOf cexData).getD []) ≠ c3Disk := by
  decide

/-! ## Nested-match suppression -/

lemma processFull_kind (data : List Char)
    (m : Nat × (List Char × List Char × List Char)) (b : BlockInfo)
    (h : processFull data m = some b) : b.kind = .fullFunction := by
  rcases m with ⟨i, nm, rv, fv⟩
  simp only [processFull] at h
  repeat' split at h
  all_goals try exact Option.noConfusion h
  obtain rfl : _ = b := Option.some.inj h
  rfl

lemma scanBalance_some_pos (oc cc : Char) : ∀ (s : List Char) (d : Int)
    (started : Bool) (i e : Nat), scanBalance oc cc s d started i = some e → i < e := by
  intro s
  induction s with
  | nil =>
    intro d started i e h
    exact absurd h (by simp [scanBalance])
  | cons c t ih =>
    intro d started i e h
    unfold scanBalance at h
    split at h
    · have := ih _ _ _ _ h
      omega
    · split at h
      · split at h
        · obtain rfl : i + 1 = e := Option.some.inj h
          omega
        · have := ih _ _ _ _ h
          omega
      · have := ih _ _ _ _ h
        omega

lemma extract_block_some_pos (data : List Char) (start : Nat) (kind : ExtractKind)
    (bb : List Char) (bl : Nat) (h : extract_block data start kind = some (bb, bl)) :
    1 ≤ bl := by
  unfold extract_block at h
  split at h
  · exact absurd h (by simp)
  · rename_i e he
    have hinj := Option.some.inj h
    have h2 : e = bl := congrArg Prod.snd hinj
    have h3 := scanBalance_some_pos (openOf kind) (closeOf kind) _ _ _ _ _ he
    omega

lemma processReturn_shape (data : List Char) (m : Nat × (List Char × List Char))
    (b : BlockInfo) (h : processReturn data m = some b) :
    b.kind = .returnBlock ∧ b.offset = m.1 ∧ 1 ≤ b.length := by
  rcases m with ⟨rs, rv, fv⟩
  simp only [processReturn] at h
  repeat' split at h
  all_goals try exact Option.noConfusion h
  rename_i xa bb bl hex xb tv htv
  obtain rfl : _ = b := Option.some.inj h
  exact ⟨rfl, rfl, extract_block_some_pos data rs .ret bb bl hex⟩

lemma insideSome_false (blocks : List BlockInfo) (rs : Nat)
    (h : insideSome blocks rs = false) :
    ∀ fb ∈ blocks, ¬ (fb.offset ≤ rs ∧ rs < fb.offset + fb.length) := by
  intro fb hfb hc
  unfold insideSome at h
  rw [List.any_eq_false] at h
  exact h fb hfb (by simp [hc.1, hc.2])

lemma find_fold_inv (data : List Char) :
    ∀ (ms : List (Nat × (List Char × List Char))) (acc : List BlockInfo),
    (∀ fb ∈ (findFullMatches data).filterMap (processFull data), fb ∈ acc) →
    (∀ b ∈ acc, b.kind = .fullFunction →
      b ∈ (findFullMatches data).filterMap (processFull data)) →
    (∀ b ∈ acc, b.kind = .returnBlock →
      1 ≤ b.length ∧ ∀ fb ∈ (findFullMatches data).filterMap (processFull data),
        ¬ (fb.offset ≤ b.offset ∧ b.offset < fb.offset + fb.length)) →
    ∀ b ∈ ms.foldl (retStep data) acc,
      (b.kind = .fullFunction →
        b ∈ (findFullMatches data).filterMap (processFull data)) ∧
      (b.kind = .returnBlock →
        1 ≤ b.length ∧ ∀ fb ∈ (findFullMatches data).filterMap (processFull data),
          ¬ (fb.offset ≤ b.offset ∧ b.offset < fb.offset + fb.length)) := by
  intro ms
  induction ms with
  | nil =>
    intro acc h1 h2 h3 b hb
    exact ⟨h2 b hb, h3 b hb⟩
  | cons m ms ih =>
    intro acc h1 h2 h3 b hb
    rw [List.foldl_cons] at hb
    refine ih (retStep data acc m) ?_ ?_ ?_ b hb
    · intro fb hfb
      unfold retStep
      split
      · exact h1 fb hfb
      · split
        · exact h1 fb hfb
        · exact List.mem_append_left _ (h1 fb hfb)
    · intro b' hb' hk
      unfold retStep at hb'
      split at hb'
      · exact h2 b' hb' hk
      · split at hb'
        · exact h2 b' hb' hk
        · rename_i hins xo nb hpr
          rcases List.mem_append.mp hb' with hmem | hmem
          · exact h2 b' hmem hk
          · obtain rfl : nb = b' := List.mem_singleton.mp hmem |>.symm
            obtain ⟨hk', -, -⟩ := processReturn_shape data m nb hpr
            rw [hk'] at hk
            exact absurd hk (by simp)
    · intro b' hb' hk
      unfold retStep at hb'
      split at hb'
      · exact h3 b' hb' hk
      · split at hb'
        · exact h3 b' hb' hk
        · rename_i hins xo nb hpr
          rcases List.mem_append.mp hb' with hmem | hmem
          · exact h3 b' hmem hk
          · obtain rfl : nb = b' := List.mem_singleton.mp hmem |>.symm
            obtain ⟨-, hoff, hlen⟩ := processReturn_shape data m nb hpr
            refine ⟨hlen, ?_⟩
            intro fb hfb hcontra
            have hins' : insideSome acc m.1 = false := by
              revert hins
              cases insideSome acc m.1 <;> simp
            have hnot := insideSome_false acc m.1 hins' fb (h1 fb hfb)
            rw [hoff] at hcontra
            exact hnot hcontra

/-- C8: the Block Classifier never outputs a return-block whose offset range
is fully contained in a detected full-function block's range: any such
candidate is suppressed, regardless of scan order. -/
theorem c8_nested_suppression (data : List Char) (rb fb : BlockInfo)
    (hrb : rb ∈ find_mascot_blocks data) (hfb : fb ∈ find_mascot_blocks data)
    (hk1 : rb.kind = .returnBlock) (hk2 : fb.kind = .fullFunction) :
    ¬ (fb.offset ≤ rb.offset ∧ rb.offset + rb.length ≤ fb.offset + fb.length) := by
  intro hc
  unfold find_mascot_blocks at hrb hfb
  have inv := find_fold_inv data (findReturnMatches data)
    ((findFullMatches data).filterMap (processFull data))
    (fun fb h => h) (fun b hb _ => hb) ?f3
  case f3 =>
    intro b hb hk
    obtain ⟨mm, hmm, hpf⟩ := List.mem_filterMap.mp hb
    have := processFull_kind data mm b hpf
    rw [this] at hk
    exact absurd hk (by simp)
  obtain ⟨hlen, hgood⟩ := (inv rb hrb).2 hk1
  have hfb' := (inv fb hfb).1 hk2
  exact hgood fb hfb' ⟨hc.1, by omega⟩

theorem c8_witness :
    ¬ (c8FullB.offset ≤ c8RetB.offset ∧
      c8RetB.offset + c8RetB.length ≤ c8FullB.offset + c8FullB.length) :=
  c8_nested_suppression c8Data c8RetB c8FullB (by decide) (by decide) rfl rfl

/-! ## Balanced extraction -/

lemma openOf_ne_closeOf (kind : ExtractKind) : openOf kind ≠ closeOf kind := by
  cases kind <;> decide

lemma scanBalance_cons (oc cc c : Char) (rest : List Char) (depth : Int)
    (started : Bool) (i : Nat) :
    scanBalance oc cc (c :: rest) depth started i =
      if c = oc then scanBalance oc cc rest (depth + 1) true (i + 1)
      else if c = cc then
        (if started = true ∧ depth - 1 = 0 then some (i + 1)
         else scanBalance oc cc rest (depth - 1) started (i + 1))
      else scanBalance oc cc rest depth started (i + 1) := rfl

lemma scanBalance_opens (oc cc : Char) : ∀ (n : Nat) (s : List Char) (depth : Int)
    (started : Bool) (i : Nat),
    scanBalance oc cc (List.replicate (n + 1) oc ++ s) depth started i =
      scanBalance oc cc s (depth + (n + 1)) true (i + (n + 1)) := by
  intro n
  induction n with
  | zero =>
    intro s depth started i
    show scanBalance oc cc (oc :: s) depth started i = _
    rw [scanBalance_cons, if_pos rfl]
    norm_num
  | succ k ihk =>
    intro s depth started i
    show scanBalance oc cc (oc :: (List.replicate (k + 1) oc ++ s)) depth started i = _
    rw [scanBalance_cons, if_pos rfl, ihk]
    have e1 : depth + 1 + ((k : Int) + 1) = depth + ((k : Int) + 1 + 1) := by ring
    have e2 : i + 1 + (k + 1) = i + (k + 1 + 1) := by omega
    rw [e2]
    push_cast
    rw [e1]

lemma scanBalance_closes (oc cc : Char) (h : oc ≠ cc) : ∀ (n : Nat)
    (rest : List Char) (i : Nat),
    scanBalance oc cc (List.replicate (n + 1) cc ++ rest) ((n : Int) + 1) true i =
      some (i + (n + 1)) := by
  intro n
  induction n with
  | zero =>
    intro rest i
    show scanBalance oc cc (cc :: rest) ((0 : Nat) + 1 : Int) true i = _
    rw [scanBalance_cons, if_neg (Ne.symm h)]
    norm_num
  | succ k ihk =>
    intro rest i
    show scanBalance oc cc (cc :: (List.replicate (k + 1) cc ++ rest))
      (((k : Nat) + 1 : Nat) + 1 : Int) true i = _
    rw [scanBalance_cons, if_neg (Ne.symm h), if_pos rfl,
      if_neg (fun hcon => absurd hcon.2 (by push_cast; omega))]
    have e1 : (((k : Nat) + 1 : Nat) : Int) + 1 - 1 = ((k : Nat) : Int) + 1 := by
      push_cast
      ring
    rw [e1, ihk]
    congr 1
    omega

lemma nestChunk_length (oc cc : Char) (n : Nat) :
    (nestChunk oc cc n).length = 2 * n := by
  simp [nestChunk]
  omega

lemma scanBalance_nest (oc cc : Char) (h : oc ≠ cc) (N : Nat) (hN : 1 ≤ N)
    (rest : List Char) :
    scanBalance oc cc (nestChunk oc cc N ++ rest) 0 false 0 = some (2 * N) := by
  obtain ⟨n, rfl⟩ : ∃ n, N = n + 1 := ⟨N - 1, by omega⟩
  unfold nestChunk
  rw [List.append_assoc, scanBalance_opens]
  have e1 : (0 : Int) + ((n : Int) + 1) = (n : Int) + 1 := by ring
  rw [e1, scanBalance_closes oc cc h]
  have e2 : 0 + (n + 1) + (n + 1) = 2 * (n + 1) := by omega
  rw [e2]

lemma depthAt_nest (oc cc : Char) (h : oc ≠ cc) (N k : Nat) (hk : k ≤ 2 * N) :
    depthAt oc cc (nestChunk oc cc N) k =
      if k ≤ N then (k : Int) else ((2 * N : Int) - k) := by
  unfold depthAt nestChunk
  have hbne : ¬ (oc == cc) = true := by simp [h]
  have hbne' : ¬ (cc == oc) = true := by simp [Ne.symm h]
  by_cases hkN : k ≤ N
  · rw [if_pos hkN]
    rw [List.take_append_of_le_length (by simp; omega)]
    rw [List.take_replicate, Nat.min_eq_left hkN]
    rw [List.count_replicate_self, List.count_replicate]
    rw [if_neg hbne]
    norm_num
  · rw [if_neg hkN]
    rw [List.take_append_eq_append_take]
    rw [List.take_of_length_le (by simp; omega)]
    rw [List.length_replicate, List.take_replicate,
      Nat.min_eq_left (by omega)]
    rw [List.count_append, List.count_append]
    rw [List.count_replicate_self, List.count_replicate_self,
      List.count_replicate, List.count_replicate]
    rw [if_neg hbne, if_neg hbne']
    push_cast
    omega

lemma depthAt_succ (oc cc : Char) (s : List Char) (i : Nat) (c : Char)
    (hc : s[i]? = some c) :
    depthAt oc cc s (i + 1) = depthAt oc cc s i
      + (if c = oc then 1 else 0) - (if c = cc then 1 else 0) := by
  unfold depthAt
  rw [List.take_succ, hc]
  show ((List.count oc (s.take i ++ [c]) : Int)) - _ = _
  by_cases h1 : c = oc <;> by_cases h2 : c = cc <;>
    simp [h1, h2, List.count_append, List.count_singleton_self,
      List.count_singleton] <;>
    push_cast <;> omega

lemma startedAt_succ_of_open (oc : Char) (s : List Char) (i : Nat)
    (hc : s[i]? = some oc) : startedAt oc s (i + 1) = true := by
  unfold startedAt
  rw [List.take_succ, hc]
  simp

lemma startedAt_succ_of_ne (oc : Char) (s : List Char) (i : Nat) (c : Char)
    (hc : s[i]? = some c) (hne : c ≠ oc) :
    startedAt oc s (i + 1) = startedAt oc s i := by
  unfold startedAt
  rw [List.take_succ, hc]
  simp [List.mem_append, Ne.symm hne]

lemma startedAt_exists (oc : Char) (s : List Char) (i : Nat)
    (h : startedAt oc s i = true) : ∃ j < i, s[j]? = some oc := by
  unfold startedAt at h
  rw [decide_eq_true_eq] at h
  obtain ⟨j, hj⟩ := List.mem_iff_getElem?.mp h
  have hji : j < i := by
    by_contra hle
    rw [List.getElem?_eq_none (by simp; omega : (s.take i).length ≤ j)] at hj
    exact Option.noConfusion hj
  refine ⟨j, hji, ?_⟩
  rw [List.getElem?_take_of_lt hji] at hj
  exact hj

lemma scanBalance_none_of_no_balance (oc cc : Char) (hocc : oc ≠ cc)
    (chunk : List Char)
    (hno : ∀ k, k ≤ chunk.length → 1 ≤ k → ¬ balancesAt oc cc chunk k) :
    ∀ (n i : Nat), n = chunk.length - i → i ≤ chunk.length →
      scanBalance oc cc (chunk.drop i) (depthAt oc cc chunk i)
        (startedAt oc chunk i) i = none := by
  intro n
  induction n with
  | zero =>
    intro i hn hi
    rw [List.drop_eq_nil_of_le (by omega)]
    rfl
  | succ m ihm =>
    intro i hn hi
    have hlt : i < chunk.length := by omega
    obtain ⟨c, hc'⟩ : ∃ c, chunk[i]? = some c :=
      ⟨chunk[i], List.getElem?_eq_getElem hlt⟩
    have hdrop : chunk.drop i = c :: chunk.drop (i + 1) := by
      have hd := List.drop_eq_getElem_cons hlt
      have h2 := List.getElem?_eq_getElem hlt
      rw [hc'] at h2
      rw [(Option.some.inj h2).symm] at hd
      exact hd
    rw [hdrop, scanBalance_cons]
    by_cases h1 : c = oc
    · rw [if_pos h1]
      have hd : depthAt oc cc chunk i + 1 = depthAt oc cc chunk (i + 1) := by
        rw [depthAt_succ oc cc chunk i c hc', if_pos h1, if_neg (h1 ▸ hocc)]
        ring
      have hs : startedAt oc chunk (i + 1) = true :=
        startedAt_succ_of_open oc chunk i (h1 ▸ hc')
      rw [hd, ← hs]
      exact ihm (i + 1) (by omega) (by omega)
    · rw [if_neg h1]
      by_cases h2 : c = cc
      · rw [if_pos h2]
        by_cases h3 : startedAt oc chunk i = true ∧ depthAt oc cc chunk i - 1 = 0
        · exfalso
          obtain ⟨hst, hdep⟩ := h3
          apply hno (i + 1) (by omega) (by omega)
          refine ⟨?_, ?_, ?_⟩
          · obtain ⟨j, hji, hjo⟩ := startedAt_exists oc chunk i hst
            exact ⟨j, by omega, by omega, hjo⟩
          · show chunk[i + 1 - 1]? = some cc
            rw [Nat.add_sub_cancel, hc', h2]
          · rw [depthAt_succ oc cc chunk i c hc', if_neg h1, if_pos h2]
            omega
        · rw [if_neg h3]
          have hd : depthAt oc cc chunk i - 1 = depthAt oc cc chunk (i + 1) := by
            rw [depthAt_succ oc cc chunk i c hc', if_neg h1, if_pos h2]
            ring
          have hs : startedAt oc chunk (i + 1) = startedAt oc chunk i :=
            startedAt_succ_of_ne oc chunk i c hc' h1
          rw [hd, ← hs]
          exact ihm (i + 1) (by omega) (by omega)
      · rw [if_neg h2]
        have hd : depthAt oc cc chunk i = depthAt oc cc chunk (i + 1) := by
          rw [depthAt_succ oc cc chunk i c hc', if_neg h1, if_neg h2]
          ring
        have hs : startedAt oc chunk (i + 1) = startedAt oc chunk i :=
          startedAt_succ_of_ne oc chunk i c hc' h1
        rw [hd, ← hs]
        exact ihm (i + 1) (by omega) (by omega)

/-- C5: on a window beginning with `N ≥ 1` correctly nested delimiter pairs
of the requested kind, the extractor returns exactly that span, whose depth
trace is never negative, becomes positive, and returns to zero exactly once
— at the final byte; and when the window never balances, it returns no
span. -/
theorem c5_balanced_extraction :
    (∀ (data : List Char) (off N : Nat) (rest : List Char) (kind : ExtractKind),
      1 ≤ N →
      sliceAt data off 2000 = nestChunk (openOf kind) (closeOf kind) N ++ rest →
      extract_block data off kind =
        some (nestChunk (openOf kind) (closeOf kind) N, 2 * N) ∧
      (∀ k, k ≤ 2 * N → 0 ≤ depthAt (openOf kind) (closeOf kind)
        (nestChunk (openOf kind) (closeOf kind) N) k) ∧
      (∃ k, k ≤ 2 * N ∧ 0 < depthAt (openOf kind) (closeOf kind)
        (nestChunk (openOf kind) (closeOf kind) N) k) ∧
      (∀ k, 1 ≤ k → k ≤ 2 * N →
        (depthAt (openOf kind) (closeOf kind)
          (nestChunk (openOf kind) (closeOf kind) N) k = 0 ↔ k = 2 * N))) ∧
    (∀ (data : List Char) (off : Nat) (kind : ExtractKind),
      (∀ k, k ≤ (sliceAt data off 2000).length → 1 ≤ k →
        ¬ balancesAt (openOf kind) (closeOf kind) (sliceAt data off 2000) k) →
      extract_block data off kind = none) := by
  constructor
  · intro data off N rest kind hN hchunk
    have hocc := openOf_ne_closeOf kind
    have hform := depthAt_nest (openOf kind) (closeOf kind) hocc N
    refine ⟨?_, ?_, ?_, ?_⟩
    · unfold extract_block
      rw [hchunk, scanBalance_nest _ _ hocc N hN rest]
      show some ((nestChunk (openOf kind) (closeOf kind) N ++ rest).take (2 * N),
        2 * N) = _
      have htake : (nestChunk (openOf kind) (closeOf kind) N ++ rest).take (2 * N) =
          nestChunk (openOf kind) (closeOf kind) N := by
        rw [List.take_append_of_le_length (by rw [nestChunk_length])]
        exact List.take_of_length_le (by rw [nestChunk_length])
      rw [htake]
    · intro k hk
      rw [hform k hk]
      split <;> omega
    · refine ⟨1, by omega, ?_⟩
      rw [hform 1 (by omega), if_pos hN]
      norm_num
    · intro k h1 h2
      rw [hform k h2]
      split <;> constructor <;> intro h0 <;> omega
  · intro data off kind hno
    have hocc := openOf_ne_closeOf kind
    unfold extract_block
    have h0 := scanBalance_none_of_no_balance (openOf kind) (closeOf kind) hocc
      (sliceAt data off 2000) (fun k hk h1 => hno k hk h1)
      ((sliceAt data off 2000).length) 0 (by omega) (by omega)
    rw [List.drop_zero] at h0
    have e1 : depthAt (openOf kind) (closeOf kind) (sliceAt data off 2000) 0 = 0 := by
      simp [depthAt]
    have e2 : startedAt (openOf kind) (sliceAt data off 2000) 0 = false := by
      simp [startedAt]
    rw [e1, e2] at h0
    rw [h0]

theorem c5_witness :
    extract_block c5WData 0 .function =
      some (nestChunk (openOf .function) (closeOf .function) 2, 2 * 2) ∧
    extract_block c5FData 0 .ret = none :=
  ⟨(c5_balanced_extraction.1 c5WData 0 2 [] .function (by norm_num) (by decide)).1,
   c5_balanced_extraction.2 c5FData 0 .ret (by decide)⟩
